import Mathlib

/-!
Verification of the xiangqi position engine (`src/xiangqi.ts`).

The file embeds the engine shallowly:
* basic types (`Square`, `Color`, `Role`, `Piece`) follow `types.ts`;
* the bitboard / board / geometric-attack collaborators (`squareSet.ts`,
  `board.ts`, `attacks.ts`) are not part of the provided sources, so they are
  modelled from the specification's contracts (each such definition says so in
  its doc comment);
* the functions of `xiangqi.ts` (`attacksTo`, `horseInvAttacks`,
  `pawnInvAttacks`, `Position.validate`, `Position.dests`, `Position.play`,
  the game-end predicates, ...) are translated directly from the source.
-/

/-- A square, an integer index into the 9×10 grid (`types.ts`). -/
abbrev Square := Fin 90

/-- Side color (`types.ts`). -/
inductive Color : Type
  | red
  | black
deriving DecidableEq, Repr, Fintype

/-- Piece role (`types.ts`). -/
inductive Role : Type
  | king
  | advisor
  | elephant
  | horse
  | chariot
  | cannon
  | pawn
deriving DecidableEq, Repr, Fintype

/-- The `ROLES` constant of `types.ts`: iteration order over roles. -/
def ROLES : List Role :=
  [.king, .advisor, .elephant, .horse, .chariot, .cannon, .pawn]

/-- The `COLORS` constant of `types.ts`. -/
def COLORS : List Color := [.red, .black]

/-- A piece (`types.ts`): a color together with a role. -/
structure Piece : Type where
  color : Color
  role : Role
deriving DecidableEq, Repr

/-- A move (`types.ts`): source and destination squares
(`from` is a Lean keyword, hence `fromSq`/`toSq`). -/
structure Move : Type where
  fromSq : Square
  toSq : Square
deriving DecidableEq, Repr

/-- Function `opposite` from `util.ts`. -/
def opposite : Color → Color
  | .red => .black
  | .black => .red

/-- Function `squareFile` from `util.ts`: the file (column, 0–8) of a square. -/
def squareFile (s : Square) : Nat := s.val % 9

/-- Function `squareRank` from `util.ts`: the rank (row, 0–9) of a square;
red's home ranks are at the low end. -/
def squareRank (s : Square) : Nat := s.val / 9

/-- Modelled from the spec (`squareSet.ts` is not in the sources): a
`SquareSet` is a set of squares; the bitboard is modelled as a `Finset`. -/
abbrev SquareSet := Finset Square

/-- Helper: the set of squares whose index lies in a given list of naturals.
Used to write down the fixed legal-zone tables. -/
def sqSet (l : List Nat) : SquareSet :=
  Finset.univ.filter (fun s => s.val ∈ l)

/-- Helper: membership of a raw integer index in a square set (`false` when
the index is off the board, like a bitboard test on an out-of-range index). -/
def hasInt (occ : SquareSet) (i : Int) : Bool :=
  if h : 0 ≤ i ∧ i < 90 then
    decide ((⟨i.toNat, by omega⟩ : Square) ∈ occ)
  else false

/-- Helper: membership of a natural index in a square set. -/
def hasNat (occ : SquareSet) (n : Nat) : Bool :=
  if h : n < 90 then decide ((⟨n, h⟩ : Square) ∈ occ) else false

/-- Modelled from the spec (`attacks.ts` is not in the sources):
`isValidStep(square, dest)` rejects wraparound across the board edge by
comparing actual file/rank deltas rather than the raw index difference. -/
def isValidStep (a : Square) (i : Int) : Bool :=
  if h : 0 ≤ i ∧ i < 90 then
    let b : Square := ⟨i.toNat, by omega⟩
    decide (((squareFile b : Int) - squareFile a).natAbs ≤ 2
      ∧ ((squareRank b : Int) - squareRank a).natAbs ≤ 2)
  else false

/-- Helper for translating `range.with(square + dir)` patterns: insert the
destination when it is a valid step from `a`, else leave the set unchanged. -/
def withValid (range : SquareSet) (a : Square) (i : Int) : SquareSet :=
  if h : 0 ≤ i ∧ i < 90 then
    if isValidStep a i then insert (⟨i.toNat, by omega⟩ : Square) range else range
  else range

/-- Modelled from the spec: the 3×3 palace zone of a color
(files 3–5; ranks 0–2 for red, 7–9 for black). -/
def inPalace (c : Color) (s : Square) : Prop :=
  3 ≤ squareFile s ∧ squareFile s ≤ 5 ∧
    (match c with
      | .red => squareRank s ≤ 2
      | .black => 7 ≤ squareRank s)

instance (c : Color) (s : Square) : Decidable (inPalace c s) := by
  unfold inPalace; cases c <;> exact inferInstance

/-- Modelled from the spec: a color's own side of the river
(squares 0–44 for red, 45–89 for black). -/
def ownSide (c : Color) (s : Square) : Prop :=
  match c with
  | .red => s.val ≤ 44
  | .black => 45 ≤ s.val

instance (c : Color) (s : Square) : Decidable (ownSide c s) := by
  unfold ownSide; cases c <;> exact inferInstance

/-- One orthogonal step between two squares. -/
def orthStep (a b : Square) : Prop :=
  (squareRank a = squareRank b
      ∧ ((squareFile a : Int) - squareFile b).natAbs = 1)
    ∨ (squareFile a = squareFile b
      ∧ ((squareRank a : Int) - squareRank b).natAbs = 1)

instance (a b : Square) : Decidable (orthStep a b) := by
  unfold orthStep; exact inferInstance

/-- One diagonal step between two squares. -/
def diagStep (a b : Square) : Prop :=
  ((squareFile a : Int) - squareFile b).natAbs = 1
    ∧ ((squareRank a : Int) - squareRank b).natAbs = 1

instance (a b : Square) : Decidable (diagStep a b) := by
  unfold diagStep; exact inferInstance

/-- Two squares on the same file or the same rank. -/
def sameLine (a b : Square) : Prop :=
  squareFile a = squareFile b ∨ squareRank a = squareRank b

instance (a b : Square) : Decidable (sameLine a b) := by
  unfold sameLine; exact inferInstance

/-- Modelled from the spec (`attacks.ts`): `between(a, b)`, the squares
strictly between two squares sharing a file or a rank (empty otherwise). -/
def between (a b : Square) : SquareSet :=
  Finset.univ.filter (fun t =>
    (squareFile a = squareFile b ∧ squareFile t = squareFile a
        ∧ ((squareRank a < squareRank t ∧ squareRank t < squareRank b)
          ∨ (squareRank b < squareRank t ∧ squareRank t < squareRank a)))
    ∨ (squareRank a = squareRank b ∧ squareRank t = squareRank a
        ∧ ((squareFile a < squareFile t ∧ squareFile t < squareFile b)
          ∨ (squareFile b < squareFile t ∧ squareFile t < squareFile a))))

/-- Modelled from the spec (`attacks.ts`): squares a king of color `c` on
`sq` attacks — one orthogonal step, confined to `c`'s palace.  The relation is
symmetric, so the same table serves the inverse use in `attacksTo`. -/
def kingAttacks (c : Color) (sq : Square) : SquareSet :=
  Finset.univ.filter (fun t => inPalace c sq ∧ inPalace c t ∧ orthStep sq t)

/-- Modelled from the spec (`attacks.ts`): squares an advisor of color `c` on
`sq` attacks — one diagonal step, confined to `c`'s palace. -/
def advisorAttacks (c : Color) (sq : Square) : SquareSet :=
  Finset.univ.filter (fun t => inPalace c sq ∧ inPalace c t ∧ diagStep sq t)

/-- Modelled from the spec (`attacks.ts`): squares an elephant of color `c`
on `sq` attacks under occupancy `occ` — a two-step diagonal jump whose
midpoint (the elephant's eye) is empty, never crossing the river. -/
def elephantAttacks (c : Color) (sq : Square) (occ : SquareSet) : SquareSet :=
  Finset.univ.filter (fun t =>
    ownSide c sq ∧ ownSide c t
      ∧ ((squareFile sq : Int) - squareFile t).natAbs = 2
      ∧ ((squareRank sq : Int) - squareRank t).natAbs = 2
      ∧ hasNat occ ((sq.val + t.val) / 2) = false)

/-- Horse jump shape: an (1,2) or (2,1) file/rank offset. -/
def horseJump (a b : Square) : Prop :=
  (((squareFile a : Int) - squareFile b).natAbs = 1
      ∧ ((squareRank a : Int) - squareRank b).natAbs = 2)
    ∨ (((squareFile a : Int) - squareFile b).natAbs = 2
      ∧ ((squareRank a : Int) - squareRank b).natAbs = 1)

instance (a b : Square) : Decidable (horseJump a b) := by
  unfold horseJump; exact inferInstance

/-- The index of the leg (blocking) square of a horse standing on `sq` and
jumping to `t`: one orthogonal step from `sq` toward `t`. -/
def horseLeg (sq t : Square) : Int :=
  if squareRank t > squareRank sq + 1 then (sq.val : Int) + 9
  else if squareRank t + 1 < squareRank sq then (sq.val : Int) - 9
  else if squareFile t > squareFile sq then (sq.val : Int) + 1
  else (sq.val : Int) - 1

/-- Modelled from the spec (`attacks.ts`): forward horse attacks from `sq` —
the eight L-jumps whose adjacent leg square is empty. -/
def horseAttacks (sq : Square) (occ : SquareSet) : SquareSet :=
  Finset.univ.filter (fun t => horseJump sq t ∧ hasInt occ (horseLeg sq t) = false)

/-- Modelled from the spec (`attacks.ts`): chariot attacks from `sq` —
slides along the file or rank, up to and including the first blocker. -/
def chariotAttacks (sq : Square) (occ : SquareSet) : SquareSet :=
  Finset.univ.filter (fun t => t ≠ sq ∧ sameLine sq t ∧ between sq t ∩ occ = ∅)

/-- Modelled from the spec (`attacks.ts`): cannon attacks from `sq` — moves
like a chariot to empty squares (clear line, no landing on the blocker), and
attacks an occupied square exactly when one screen lies strictly between. -/
def cannonAttacks (sq : Square) (occ : SquareSet) : SquareSet :=
  Finset.univ.filter (fun t => t ≠ sq ∧ sameLine sq t ∧
    (if t ∈ occ then (between sq t ∩ occ).card = 1 else between sq t ∩ occ = ∅))

/-- Modelled from the spec (`attacks.ts`): forward pawn attacks — one step
forward, and additionally one step sideways once the pawn has crossed the
river (index ≥ 45 for red, < 45 for black). -/
def pawnAttacks (c : Color) (sq : Square) : SquareSet :=
  match c with
  | .red =>
      Finset.univ.filter (fun t =>
        (squareFile t = squareFile sq ∧ squareRank t = squareRank sq + 1)
        ∨ (45 ≤ sq.val ∧ squareRank t = squareRank sq
            ∧ ((squareFile sq : Int) - squareFile t).natAbs = 1))
  | .black =>
      Finset.univ.filter (fun t =>
        (squareFile t = squareFile sq ∧ squareRank t + 1 = squareRank sq)
        ∨ (sq.val < 45 ∧ squareRank t = squareRank sq
            ∧ ((squareFile sq : Int) - squareFile t).natAbs = 1))

/-- Modelled from the spec (`attacks.ts`): the per-role forward attack
dispatcher `attacks(piece, square, occupied)`. -/
def attacks (piece : Piece) (sq : Square) (occ : SquareSet) : SquareSet :=
  match piece.role with
  | .king => kingAttacks piece.color sq
  | .advisor => advisorAttacks piece.color sq
  | .elephant => elephantAttacks piece.color sq occ
  | .horse => horseAttacks sq occ
  | .chariot => chariotAttacks sq occ
  | .cannon => cannonAttacks sq occ
  | .pawn => pawnAttacks piece.color sq

/-- Modelled from the spec (`board.ts`): the board is a mapping from squares
to optional pieces; the derived bitboards below are computed from it, so the
spec's consistency invariants hold by construction. -/
abbrev Board := Square → Option Piece

/-- Derived bitboard of all occupied squares (`board.occupied`). -/
def occupiedOf (b : Board) : SquareSet :=
  Finset.univ.filter (fun s => b s ≠ none)

/-- Derived per-color bitboard (`board[color]`): all pieces of one color. -/
def byColor (b : Board) (c : Color) : SquareSet :=
  Finset.univ.filter (fun s => (b s).map Piece.color = some c)

/-- Derived per-role bitboard (`board[role]`): all pieces of one role,
of either color. -/
def byRole (b : Board) (r : Role) : SquareSet :=
  Finset.univ.filter (fun s => (b s).map Piece.role = some r)

/-- Function `board.pieces(color, role)`: the squares holding that exact piece. -/
def piecesCR (b : Board) (c : Color) (r : Role) : SquareSet :=
  Finset.univ.filter (fun s => b s = some ⟨c, r⟩)

/-- The squares of a set, in ascending order. -/
def squaresAsc (s : SquareSet) : List Square :=
  (List.finRange 90).filter (fun t => t ∈ s)

/-- Modelled from the spec (`squareSet.ts`): the unique element of a
singleton set, `undefined` otherwise (`SquareSet.singleSquare`). -/
def singleSquare (s : SquareSet) : Option Square :=
  match squaresAsc s with
  | [x] => some x
  | _ => none

/-- Modelled from the spec (`squareSet.ts`): smallest member (`first`). -/
def firstSq (s : SquareSet) : Option Square := (squaresAsc s).head?

/-- Modelled from the spec (`squareSet.ts`): largest member (`last`). -/
def lastSq (s : SquareSet) : Option Square := (squaresAsc s).getLast?

/-- Modelled from the spec (`board.ts`): `board.kingOf(color)` — the square
of that color's king when it is unique, `undefined` otherwise. -/
def kingOf (b : Board) (c : Color) : Option Square :=
  singleSquare (piecesCR b c .king)

/-- Function `board.take(square)` (`board.ts` contract): the board with the piece at
`square` removed. -/
def boardTake (b : Board) (s : Square) : Board :=
  fun x => if x = s then none else b x

/-- Function `board.set(square, piece)` (`board.ts` contract): the board with `piece`
placed on `square`; the previous occupant (the capture `set` reports) is
`b s`. -/
def boardSet (b : Board) (s : Square) (pc : Piece) : Board :=
  fun x => if x = s then some pc else b x

/-- Function `boardEquals` from `board.ts`: same piece on every square. -/
def boardEquals (b1 b2 : Board) : Bool :=
  decide (∀ s, b1 s = b2 s)

/-- Modelled from the spec (`squareSet.ts`): `SquareSet.backrank(color)`,
a color's own back rank (rank 0 for red, rank 9 for black). -/
def backrank (c : Color) : SquareSet :=
  match c with
  | .red => Finset.univ.filter (fun s => squareRank s = 0)
  | .black => Finset.univ.filter (fun s => squareRank s = 9)

/-- The error codes of invalid setups (`IllegalSetup` in `xiangqi.ts`). -/
inductive IllegalSetup : Type
  | Empty
  | OppositeCheck
  | Kings
  | Advisors
  | Elephants
  | Horses
  | Chariots
  | Cannons
  | Pawns
  | FacingKings
deriving DecidableEq, Repr

/-- Function `PIECE_SPECS[role].maxNum` from `xiangqi.ts`. -/
def maxNum : Role → Nat
  | .king => 1
  | .advisor => 2
  | .elephant => 2
  | .horse => 2
  | .chariot => 2
  | .cannon => 2
  | .pawn => 5

/-- Function `KING_SQUARES` (modelled from the spec: the palace zone). -/
def KING_SQUARES (c : Color) : SquareSet :=
  Finset.univ.filter (fun s => inPalace c s)

/-- Function `ADVISOR_SQUARES` (modelled from the spec: the legal advisor squares,
the diagonal star inside the palace). -/
def ADVISOR_SQUARES (c : Color) : SquareSet :=
  match c with
  | .red => sqSet [3, 5, 13, 21, 23]
  | .black => sqSet [66, 68, 76, 84, 86]

/-- Function `ELEPHANT_SQUARES` (modelled from the spec: the seven legal elephant
squares per color, all on that color's own side of the river). -/
def ELEPHANT_SQUARES (c : Color) : SquareSet :=
  match c with
  | .red => sqSet [2, 6, 18, 22, 26, 38, 42]
  | .black => sqSet [47, 51, 63, 67, 71, 83, 87]

/-- The legal pawn zone (modelled from the spec, matching the raw bitboard
constants of `PIECE_SPECS.pawn`): before crossing the river a pawn sits on
one of its five starting files on its third or fourth home rank; after
crossing, anywhere on the far side. -/
def pawnZone (c : Color) : SquareSet :=
  match c with
  | .red =>
      Finset.univ.filter (fun s =>
        45 ≤ s.val ∨ ((squareRank s = 3 ∨ squareRank s = 4) ∧ squareFile s % 2 = 0))
  | .black =>
      Finset.univ.filter (fun s =>
        s.val < 45 ∨ ((squareRank s = 5 ∨ squareRank s = 6) ∧ squareFile s % 2 = 0))

/-- Function `PIECE_SPECS[role].forbidden_squares[color]` from `xiangqi.ts`:
complement of the legal zone (empty for horses, chariots, cannons). -/
def forbiddenSquares (r : Role) (c : Color) : SquareSet :=
  match r with
  | .king => Finset.univ \ KING_SQUARES c
  | .advisor => Finset.univ \ ADVISOR_SQUARES c
  | .elephant => Finset.univ \ ELEPHANT_SQUARES c
  | .horse => ∅
  | .chariot => ∅
  | .cannon => ∅
  | .pawn => Finset.univ \ pawnZone c

/-- Function `PIECE_SPECS[role].err` from `xiangqi.ts`. -/
def specErr : Role → IllegalSetup
  | .king => .Kings
  | .advisor => .Advisors
  | .elephant => .Elephants
  | .horse => .Horses
  | .chariot => .Chariots
  | .cannon => .Cannons
  | .pawn => .Pawns

/-- Function `HORSE_DIR_INV_BLOCKERS` from `xiangqi.ts`: destination offset paired
with the offset of the single leg square blocking that inverse horse jump. -/
def HORSE_DIR_INV_BLOCKERS : List (Int × Int) :=
  [(-19, -10), (-17, -8), (-11, -10), (7, 8), (-7, -8), (11, 10), (17, 8), (19, 10)]

/-- Function `horseInvAttacks` from `xiangqi.ts`: squares from which a horse can
attack `square` — for each offset, the leg square must be empty and the
destination a valid (non-wrapping) step. -/
def horseInvAttacks (square : Square) (occupied : SquareSet) : SquareSet :=
  HORSE_DIR_INV_BLOCKERS.foldl
    (fun range db =>
      if hasInt occupied ((square.val : Int) + db.2) then range
      else withValid range square ((square.val : Int) + db.1))
    ∅

/-- Function `PAWN_INV_DIRS` from `xiangqi.ts`. -/
def PAWN_INV_DIRS (c : Color) (sq : Square) : List Int :=
  match c with
  | .red => if 45 ≤ sq.val then [-1, -9, 1] else [-9]
  | .black => if sq.val < 45 then [-1, 9, 1] else [9]

/-- Function `pawnInvAttacks` from `xiangqi.ts`: squares from which a pawn of color
`color` could attack `square`. -/
def pawnInvAttacks (color : Color) (square : Square) : SquareSet :=
  (PAWN_INV_DIRS color square).foldl
    (fun range dir => withValid range square ((square.val : Int) + dir))
    ∅

/-- The seven-way union inside `attacksTo` (`xiangqi.ts` lines 134–141):
per-role inverse/forward attack bitboards, each intersected with that role's
piece bitboard, before the final intersection with the attacker's color. -/
def attacksToAux (square : Square) (attacker : Color) (board : Board)
    (occupied : SquareSet) : SquareSet :=
  (chariotAttacks square occupied ∩ byRole board .chariot)
    ∪ (horseInvAttacks square occupied ∩ byRole board .horse)
    ∪ (elephantAttacks attacker square occupied ∩ byRole board .elephant)
    ∪ (advisorAttacks attacker square ∩ byRole board .advisor)
    ∪ (kingAttacks attacker square ∩ byRole board .king)
    ∪ (cannonAttacks square occupied ∩ byRole board .cannon)
    ∪ (pawnInvAttacks attacker square ∩ byRole board .pawn)

/-- Function `attacksTo` from `xiangqi.ts`: all pieces of `attacker` color attacking
`square`, the seven-way union intersected with the attacker's occupancy. -/
def attacksTo (square : Square) (attacker : Color) (board : Board)
    (occupied : SquareSet) : SquareSet :=
  byColor board attacker ∩ attacksToAux square attacker board occupied

/-- The state of `Position` (`xiangqi.ts`): board, side to move, halfmove
clock and fullmove counter. -/
structure Position : Type where
  board : Board
  turn : Color
  halfmoves : Nat
  fullmoves : Nat
deriving DecidableEq

/-- A `Setup` (`setup.ts` contract): raw board, turn and counters, not yet
validated. -/
structure Setup : Type where
  board : Board
  turn : Color
  halfmoves : Nat
  fullmoves : Nat
deriving DecidableEq

/-- The `Context` cache of `xiangqi.ts`: king square (if any) of the side to
move together with the checkers bitboard. -/
structure Context : Type where
  king : Option Square
  checkers : SquareSet

/-- Function `Position.attackers` from `xiangqi.ts`. -/
def Position.attackers (p : Position) (square : Square) (attacker : Color)
    (occupied : SquareSet) : SquareSet :=
  attacksTo square attacker p.board occupied

/-- Function `Position.ctx` from `xiangqi.ts`: when the side to move has no unique
king the checkers set is empty; otherwise the attackers of the king. -/
def Position.ctx (p : Position) : Context :=
  match kingOf p.board p.turn with
  | none => ⟨none, ∅⟩
  | some king =>
      ⟨some king, p.attackers king (opposite p.turn) (occupiedOf p.board)⟩

/-- Function `Position.isCheck` from `xiangqi.ts`. -/
def Position.isCheck (p : Position) : Bool :=
  decide (p.ctx.checkers ≠ ∅)

/-- Function `Position.isFacingKings` from `xiangqi.ts`: first and last squares of
the king bitboard share a file with no piece between them.  When the king
bitboard is empty the file comparison of the two undefined squares is false,
as in the source. -/
def Position.isFacingKings (p : Position) : Bool :=
  match firstSq (byRole p.board .king), lastSq (byRole p.board .king) with
  | some ourKing, some otherKing =>
      decide (squareFile ourKing = squareFile otherKing
        ∧ between ourKing otherKing ∩ occupiedOf p.board = ∅)
  | _, _ => false

/-- Function `Position.pseudoDests` from `xiangqi.ts`: raw geometric attacks minus
the squares of the side to move ("don't capture friendly pieces"). -/
def Position.pseudoDests (p : Position) (piece : Piece) (square : Square) : SquareSet :=
  attacks piece square (occupiedOf p.board) \ byColor p.board p.turn

/-- The speculative position built inside `Position.dests`: clone, take the
moving piece off `square` and set it on the destination `t`. -/
def Position.speculative (p : Position) (piece : Piece) (square t : Square) : Position :=
  { p with board := boardSet (boardTake p.board square) t piece }

/-- Function `Position.dests` from `xiangqi.ts`: pseudo destinations of the piece on
`square` (empty unless it belongs to the side to move), discarding every
candidate whose speculative application leaves the mover in check or the
kings facing. -/
def Position.dests (p : Position) (square : Square) : SquareSet :=
  match p.board square with
  | none => ∅
  | some piece =>
      if piece.color ≠ p.turn then ∅
      else
        (p.pseudoDests piece square).filter
          (fun t => ((p.speculative piece square t).isCheck
            || (p.speculative piece square t).isFacingKings) = false)

/-- The per-(color, role) loop body of `Position.validate`: the first
violated `PIECE_SPECS` entry, in `COLORS × ROLES` iteration order. -/
def checkSpecs (b : Board) : List (Color × Role) → Except IllegalSetup Unit
  | [] => .ok ()
  | (c, r) :: rest =>
      let pcs := piecesCR b c r
      if pcs.card > maxNum r ∨ pcs ∩ forbiddenSquares r c ≠ ∅ then .error (specErr r)
      else checkSpecs b rest

/-- The `COLORS × ROLES` iteration order of the validation loop. -/
def colorRolePairs : List (Color × Role) :=
  COLORS.foldr (fun c acc => ROLES.map (fun r => (c, r)) ++ acc) []

/-- Function `Position.validate` from `xiangqi.ts`: `Empty`, `Kings`,
`FacingKings`, `OppositeCheck`, then the piece-spec loop, in source order.
The routine reads only the board and the side to move, so it is factored
through those two arguments. -/
def validateBT (b : Board) (turn : Color) : Except IllegalSetup Unit :=
  if occupiedOf b = ∅ then .error .Empty
  else
    match kingOf b turn, kingOf b (opposite turn) with
    | some ourKing, some otherKing =>
        if squareFile ourKing = squareFile otherKing
            ∧ between ourKing otherKing ∩ occupiedOf b = ∅ then
          .error .FacingKings
        else if attacksTo otherKing turn b (occupiedOf b) ≠ ∅ then
          .error .OppositeCheck
        else checkSpecs b colorRolePairs
    | _, _ => .error .Kings

/-- Function `Position.validate` from `xiangqi.ts`. -/
def Position.validate (p : Position) : Except IllegalSetup Unit :=
  validateBT p.board p.turn

/-- Function `Position.toSetup` from `xiangqi.ts`: clamps the halfmove clock to at
most 150 and the fullmove counter to the range [1, 9999]. -/
def Position.toSetup (p : Position) : Setup :=
  ⟨p.board, p.turn, min p.halfmoves 150, min (max p.fullmoves 1) 9999⟩

/-- Function `setupUnchecked` (`xiangqi.ts`): the position holding a setup's data. -/
def positionOfSetup (s : Setup) : Position :=
  ⟨s.board, s.turn, s.halfmoves, s.fullmoves⟩

/-- Function `Xiangqi.fromSetup` from `xiangqi.ts`: install the setup unchecked, then
validate; success maps to the installed position. -/
def fromSetup (s : Setup) : Except IllegalSetup Position :=
  (positionOfSetup s).validate.map (fun _ => positionOfSetup s)

/-- Function `Position.hasInsufficientMaterial` from `xiangqi.ts`.  Note the cannon
branch tests the whole-board advisor and pawn bitboards, not only color
`c`'s. -/
def Position.hasInsufficientMaterial (p : Position) (c : Color) : Bool :=
  if piecesCR p.board c .chariot ∪ piecesCR p.board c .horse ≠ ∅ then false
  else if piecesCR p.board c .cannon ≠ ∅ then
    decide (byRole p.board .advisor = ∅ ∧ byRole p.board .pawn = ∅)
  else decide (piecesCR p.board c .pawn \ backrank c = ∅)

/-- Function `Position.isInsufficientMaterial` from `xiangqi.ts`: both colors. -/
def Position.isInsufficientMaterial (p : Position) : Bool :=
  COLORS.all (fun c => p.hasInsufficientMaterial c)

/-- Function `Position.hasDests` from `xiangqi.ts`: some square of the side to move
has a non-empty destination set. -/
def Position.hasDests (p : Position) : Bool :=
  (squaresAsc (byColor p.board p.turn)).any (fun s => decide (p.dests s ≠ ∅))

/-- Function `Position.isLegal` from `xiangqi.ts`. -/
def Position.isLegal (p : Position) (m : Move) : Bool :=
  decide (m.toSq ∈ p.dests m.fromSq)

/-- Function `Position.is50Moves` from `xiangqi.ts`. -/
def Position.is50Moves (p : Position) : Bool :=
  decide (50 ≤ p.halfmoves)

/-- Function `Position.isEnd` from `xiangqi.ts`. -/
def Position.isEnd (p : Position) : Bool :=
  p.isInsufficientMaterial || p.is50Moves || !p.hasDests

/-- Function `Position.isCheckmate` from `xiangqi.ts`: in check and no legal move. -/
def Position.isCheckmate (p : Position) : Bool :=
  decide (p.ctx.checkers ≠ ∅) && !p.hasDests

/-- Function `Position.isStalemate` from `xiangqi.ts`: not in check, no legal move. -/
def Position.isStalemate (p : Position) : Bool :=
  decide (p.ctx.checkers = ∅) && !p.hasDests

/-- The `Outcome` record of `types.ts`: an undefined winner is a draw. -/
structure Outcome : Type where
  winner : Option Color
deriving DecidableEq, Repr

/-- Function `Position.outcome` from `xiangqi.ts` (`none` is the ongoing-game value). -/
def Position.outcome (p : Position) : Option Outcome :=
  if p.isCheckmate || p.isStalemate then some ⟨some (opposite p.turn)⟩
  else if p.isInsufficientMaterial || p.is50Moves then some ⟨none⟩
  else none

/-- Function `Position.allDests` from `xiangqi.ts`: the destination set of every
square occupied by the side to move, in ascending square order. -/
def Position.allDests (p : Position) : List (Square × SquareSet) :=
  (squaresAsc (byColor p.board p.turn)).map (fun s => (s, p.dests s))

/-- Function `Position.play` from `xiangqi.ts`, as a function from positions to
positions: counters and turn are updated first; if no piece stands on
`move.from` the board is untouched; otherwise the piece is moved, and the
halfmove clock resets when the destination held a piece. -/
def Position.play (p : Position) (m : Move) : Position :=
  let updated : Position :=
    { p with
      halfmoves := p.halfmoves + 1
      fullmoves := if p.turn = .black then p.fullmoves + 1 else p.fullmoves
      turn := opposite p.turn }
  match p.board m.fromSq with
  | none => updated
  | some piece =>
      let afterTake := boardTake p.board m.fromSq
      let capture := afterTake m.toSq
      { updated with
        board := boardSet afterTake m.toSq piece
        halfmoves := if capture ≠ none then 0 else updated.halfmoves }

/-- Function `equalsIgnoreMoves` from `xiangqi.ts`. -/
def equalsIgnoreMoves (l r : Position) : Bool :=
  boardEquals l.board r.board && decide (l.turn = r.turn)

/-- Helper to write concrete boards: piece placement given by an association
list from square indices to pieces. -/
def mkBoard (l : List (Nat × Piece)) : Board :=
  fun s => (l.find? (fun pr => pr.1 = s.val)).map Prod.snd

/-- A small legal position: red king on square 3, black king on square 67,
red to move. -/
def posKings : Position :=
  ⟨mkBoard [(3, ⟨.red, .king⟩), (67, ⟨.black, .king⟩)], .red, 0, 1⟩

/-- A stalemate position: the lone red king on square 3 is not in check, but
the black chariots on squares 9 and 49 guard both palace squares it could
step to. -/
def posStale : Position :=
  ⟨mkBoard [(3, ⟨.red, .king⟩), (67, ⟨.black, .king⟩),
    (9, ⟨.black, .chariot⟩), (49, ⟨.black, .chariot⟩)], .red, 0, 1⟩

/-- A board holding a single black chariot on square 13 (file 4): it attacks
square 4 along the file, and no red piece is present. -/
def boardLoneBlackChariot : Board := mkBoard [(13, ⟨.black, .chariot⟩)]

/-- A position with a red cannon on square 40 and a black advisor on
square 76: red itself has no advisors and the board has no pawns. -/
def posCannonAdvisor : Position :=
  ⟨mkBoard [(40, ⟨.red, .cannon⟩), (76, ⟨.black, .advisor⟩)], .red, 0, 1⟩

/-- A position with red to move whose black chariot on square 0 has the
friendly black pawn on square 9 inside its sliding range. -/
def posBlackPieces : Position :=
  ⟨mkBoard [(0, ⟨.black, .chariot⟩), (9, ⟨.black, .pawn⟩)], .red, 0, 1⟩

/-- A position with red to move and no red king at all. -/
def posNoRedKing : Position :=
  ⟨mkBoard [(0, ⟨.black, .chariot⟩)], .red, 0, 1⟩

/-- The empty setup. -/
def setupEmpty : Setup := ⟨fun _ => none, .red, 0, 1⟩

/-- A setup whose kings face each other on file 4 with nothing between. -/
def setupFacing : Setup :=
  ⟨mkBoard [(4, ⟨.red, .king⟩), (67, ⟨.black, .king⟩)], .red, 0, 1⟩

/-- A setup that passes every validation check except that red has six
pawns, all inside the legal pawn zone. -/
def setupSixPawns : Setup :=
  ⟨mkBoard [(3, ⟨.red, .king⟩), (67, ⟨.black, .king⟩), (27, ⟨.red, .pawn⟩),
    (29, ⟨.red, .pawn⟩), (31, ⟨.red, .pawn⟩), (33, ⟨.red, .pawn⟩),
    (35, ⟨.red, .pawn⟩), (38, ⟨.red, .pawn⟩)], .red, 0, 1⟩

/-- Membership in a square set, read off from the ascending square list. -/
theorem mem_squaresAsc {s : SquareSet} {x : Square} :
    x ∈ squaresAsc s ↔ x ∈ s := by
  simp [squaresAsc, List.mem_filter, List.mem_finRange]

/-- A square reported by `singleSquare` is a member of the set. -/
theorem singleSquare_mem {s : SquareSet} {x : Square} (h : singleSquare s = some x) :
    x ∈ s := by
  unfold singleSquare at h
  split at h
  · next heq =>
      cases h
      exact mem_squaresAsc.mp (heq ▸ List.mem_singleton.mpr rfl)
  · cases h

/-- The square reported by `kingOf` really holds that color's king. -/
theorem kingOf_some {b : Board} {c : Color} {k : Square} (h : kingOf b c = some k) :
    b k = some ⟨c, .king⟩ := by
  have := singleSquare_mem h
  simpa [piecesCR] using this

/-- A board with a located king is not empty. -/
theorem occupied_ne_empty_of_kingOf {b : Board} {c : Color} {k : Square}
    (h : kingOf b c = some k) : occupiedOf b ≠ ∅ := by
  have hk := kingOf_some h
  intro hempty
  have : k ∈ occupiedOf b := by simp [occupiedOf, hk]
  rw [hempty] at this
  exact absurd this (Finset.not_mem_empty k)

/-- C1: for every position and every square holding a piece of the side to
move, every destination `dests` returns leaves, after the speculative
removal/placement the generator itself performs, the mover not in check and
the kings not facing. -/
theorem dests_leave_no_check_no_facing (p : Position) (s t : Square) (piece : Piece)
    (hpc : p.board s = some piece) (ht : t ∈ p.dests s) :
    (p.speculative piece s t).isCheck = false
    ∧ (p.speculative piece s t).isFacingKings = false := by
  unfold Position.dests at ht
  rw [hpc] at ht
  by_cases hc : piece.color = p.turn
  · simp only [hc, ne_eq, not_true_eq_false, if_false, ite_false] at ht
    have hfilter := (Finset.mem_filter.mp ht).2
    have := Bool.or_eq_false_iff.mp hfilter
    exact this
  · simp [hc] at ht

/-- C1 witness: in `posKings` the red king on square 3 can step to square 12,
and the speculative application is check-free and not facing. -/
theorem dests_leave_no_check_no_facing_witness :
    posKings.board 3 = some ⟨.red, .king⟩
    ∧ (12 : Square) ∈ posKings.dests 3
    ∧ (posKings.speculative ⟨.red, .king⟩ 3 12).isCheck = false
    ∧ (posKings.speculative ⟨.red, .king⟩ 3 12).isFacingKings = false := by
  have h := dests_leave_no_check_no_facing posKings 3 12 ⟨.red, .king⟩ (by decide) (by decide)
  exact ⟨by decide, by decide, h.1, h.2⟩

/-- C2 counterexample: with only a black chariot on square 13 attacking
square 4, the seven-way per-role union contains that black chariot, so it is
not contained in red's occupancy, and dropping the final color intersection
changes the result of `attacksTo`. -/
theorem attacksTo_aux_not_color_closed :
    ¬ attacksToAux 4 .red boardLoneBlackChariot (occupiedOf boardLoneBlackChariot)
        ⊆ byColor boardLoneBlackChariot .red
    ∧ attacksToAux 4 .red boardLoneBlackChariot (occupiedOf boardLoneBlackChariot)
        ≠ attacksTo 4 .red boardLoneBlackChariot (occupiedOf boardLoneBlackChariot) := by
  decide

/-- C2 amended: the per-role intersections use whole-board role bitboards,
so pieces of the defending color can survive them; the final intersection
with the attacking color's occupancy is what enforces the color contract,
making `attacksTo` always a subset of that occupancy. -/
theorem attacksTo_subset_attacker (square : Square) (attacker : Color)
    (b : Board) (occupied : SquareSet) :
    attacksTo square attacker b occupied ⊆ byColor b attacker :=
  Finset.inter_subset_left

/-- C2 amended witness: the subset containment at the counterexample's
concrete inputs. -/
theorem attacksTo_subset_attacker_witness :
    attacksTo 4 .red boardLoneBlackChariot (occupiedOf boardLoneBlackChariot)
      ⊆ byColor boardLoneBlackChariot .red :=
  attacksTo_subset_attacker 4 .red boardLoneBlackChariot (occupiedOf boardLoneBlackChariot)

/-- C3 counterexample: red has a cannon, no chariot/horse, no advisors of
its own, and the board has no pawns, yet `hasInsufficientMaterial(red)` is
false, because the black advisor on square 76 makes the whole-board advisor
bitboard non-empty. -/
theorem hasInsufficientMaterial_advisor_cex :
    piecesCR posCannonAdvisor.board .red .chariot
        ∪ piecesCR posCannonAdvisor.board .red .horse = ∅
    ∧ piecesCR posCannonAdvisor.board .red .cannon ≠ ∅
    ∧ piecesCR posCannonAdvisor.board .red .advisor = ∅
    ∧ byRole posCannonAdvisor.board .pawn = ∅
    ∧ posCannonAdvisor.hasInsufficientMaterial .red = false := by
  decide

/-- C3 amended: with chariots or horses the side is never insufficient;
else with a cannon, insufficient exactly when the board holds no advisors of
either color and no pawns of either color; else insufficient exactly when
all of that color's pawns sit on its own back rank. -/
theorem hasInsufficientMaterial_spec (p : Position) (c : Color) :
    (piecesCR p.board c .chariot ∪ piecesCR p.board c .horse ≠ ∅ →
      p.hasInsufficientMaterial c = false)
    ∧ (piecesCR p.board c .chariot ∪ piecesCR p.board c .horse = ∅ →
        piecesCR p.board c .cannon ≠ ∅ →
        (p.hasInsufficientMaterial c = true
          ↔ byRole p.board .advisor = ∅ ∧ byRole p.board .pawn = ∅))
    ∧ (piecesCR p.board c .chariot ∪ piecesCR p.board c .horse = ∅ →
        piecesCR p.board c .cannon = ∅ →
        (p.hasInsufficientMaterial c = true
          ↔ piecesCR p.board c .pawn \ backrank c = ∅)) := by
  refine ⟨fun h1 => ?_, fun h1 h2 => ?_, fun h1 h2 => ?_⟩
  · simp [Position.hasInsufficientMaterial, h1]
  · simp [Position.hasInsufficientMaterial, h1, h2]
  · simp [Position.hasInsufficientMaterial, h1, h2]

/-- C3 amended witness: at the counterexample position the cannon branch
yields false for red, via the amended equivalence. -/
theorem hasInsufficientMaterial_spec_witness :
    posCannonAdvisor.hasInsufficientMaterial .red = false := by
  have h := (hasInsufficientMaterial_spec posCannonAdvisor .red).2.1 (by decide) (by decide)
  cases hb : posCannonAdvisor.hasInsufficientMaterial .red
  · rfl
  · exact absurd (h.mp hb) (by decide)

/-- C4 counterexample: with red to move, `pseudoDests` of the black chariot
on square 0 contains square 9, which holds the friendly black pawn — the
subtraction uses the side to move's pieces, not the piece's own color. -/
theorem pseudoDests_friendly_capture_cex :
    posBlackPieces.turn = .red
    ∧ posBlackPieces.board 0 = some ⟨.black, .chariot⟩
    ∧ posBlackPieces.board 9 = some ⟨.black, .pawn⟩
    ∧ (9 : Square) ∈ posBlackPieces.pseudoDests ⟨.black, .chariot⟩ 0 := by
  decide

/-- C4 amended: `pseudoDests` equals the raw geometric attack set minus the
squares of the side to move; only when the piece belongs to the side to
move does it follow that no destination holds a friendly piece. -/
theorem pseudoDests_spec (p : Position) (piece : Piece) (square : Square) :
    p.pseudoDests piece square
      = attacks piece square (occupiedOf p.board) \ byColor p.board p.turn
    ∧ (piece.color = p.turn → ∀ t ∈ p.pseudoDests piece square,
        ∀ q, p.board t = some q → q.color ≠ piece.color) := by
  refine ⟨rfl, fun hc t ht q hq hcol => ?_⟩
  have hnot := (Finset.mem_sdiff.mp ht).2
  exact hnot (by simp [byColor, hq, hcol, hc])

/-- C4 amended witness: the red king's pseudo destinations in `posKings`
avoid red-occupied squares; square 12 in particular holds no red piece. -/
theorem pseudoDests_spec_witness :
    posKings.pseudoDests ⟨.red, .king⟩ 3
      = attacks ⟨.red, .king⟩ 3 (occupiedOf posKings.board) \ byColor posKings.board posKings.turn
    ∧ ∀ q, posKings.board 12 = some q → q.color ≠ Color.red :=
  ⟨(pseudoDests_spec posKings ⟨.red, .king⟩ 3).1,
    (pseudoDests_spec posKings ⟨.red, .king⟩ 3).2 rfl 12 (by decide)⟩

/-- C5: `play` always bumps the halfmove clock, bumps the fullmove counter
exactly for black, and flips the turn; with a piece on the source square it
moves it (capturing the destination's occupant) and resets the halfmove
clock exactly on capture; with no piece on the source square the board is
untouched while the counter and turn updates have already happened. -/
theorem play_spec (p : Position) (m : Move) :
    (p.play m).turn = opposite p.turn
    ∧ (p.play m).fullmoves = (if p.turn = .black then p.fullmoves + 1 else p.fullmoves)
    ∧ (p.board m.fromSq = none →
        (p.play m).board = p.board ∧ (p.play m).halfmoves = p.halfmoves + 1)
    ∧ (∀ piece, p.board m.fromSq = some piece →
        (p.play m).board = boardSet (boardTake p.board m.fromSq) m.toSq piece
        ∧ (p.play m).halfmoves
            = (if boardTake p.board m.fromSq m.toSq ≠ none then 0 else p.halfmoves + 1)) := by
  unfold Position.play
  cases hb : p.board m.fromSq
  · exact ⟨rfl, rfl, fun _ => ⟨rfl, rfl⟩, fun piece hsome => nomatch hsome⟩
  · refine ⟨rfl, rfl, ?_, ?_⟩
    · intro hnone
      exact absurd hnone (by simp)
    · intro piece hsome
      cases hsome
      exact ⟨rfl, rfl⟩

/-- C5 witness: playing the king move 3 → 12 in `posKings` flips the turn,
keeps the fullmove counter (red moved), moves the piece and, with no
capture, sets the halfmove clock to one. -/
theorem play_spec_witness :
    (posKings.play ⟨3, 12⟩).turn = opposite posKings.turn
    ∧ (posKings.play ⟨3, 12⟩).fullmoves = posKings.fullmoves
    ∧ (posKings.play ⟨3, 12⟩).board = boardSet (boardTake posKings.board 3) 12 ⟨.red, .king⟩
    ∧ (posKings.play ⟨3, 12⟩).halfmoves = posKings.halfmoves + 1 := by
  have h := play_spec posKings ⟨3, 12⟩
  have h4 := h.2.2.2 ⟨.red, .king⟩ (by decide)
  refine ⟨h.1, by rw [h.2.1]; decide, h4.1, by rw [h4.2]; decide⟩

/-- A satisfied piece-spec entry lets the validation loop continue. -/
theorem checkSpecs_cons_pass (b : Board) (c : Color) (r : Role) (rest : List (Color × Role))
    (h1 : (piecesCR b c r).card ≤ maxNum r)
    (h2 : piecesCR b c r ∩ forbiddenSquares r c = ∅) :
    checkSpecs b ((c, r) :: rest) = checkSpecs b rest := by
  have heq : checkSpecs b ((c, r) :: rest)
      = (if (piecesCR b c r).card > maxNum r ∨ piecesCR b c r ∩ forbiddenSquares r c ≠ ∅
          then Except.error (specErr r) else checkSpecs b rest) := rfl
  rw [heq, if_neg]
  rintro (h | h)
  · omega
  · exact h h2

/-- A violated piece-spec entry stops the loop with that entry's error. -/
theorem checkSpecs_cons_fail (b : Board) (c : Color) (r : Role) (rest : List (Color × Role))
    (h : maxNum r < (piecesCR b c r).card ∨ piecesCR b c r ∩ forbiddenSquares r c ≠ ∅) :
    checkSpecs b ((c, r) :: rest) = .error (specErr r) := by
  have heq : checkSpecs b ((c, r) :: rest)
      = (if (piecesCR b c r).card > maxNum r ∨ piecesCR b c r ∩ forbiddenSquares r c ≠ ∅
          then Except.error (specErr r) else checkSpecs b rest) := rfl
  rw [heq, if_pos h]

/-- A validation error surfaces unchanged through `fromSetup`. -/
theorem fromSetup_error {s : Setup} {e : IllegalSetup}
    (h : validateBT s.board s.turn = .error e) : fromSetup s = .error e := by
  simp only [fromSetup, Position.validate, positionOfSetup]
  rw [h]
  rfl

/-- C6: an empty setup fails with `Empty`; located kings sharing a file
with nothing between fail with `FacingKings`; a setup passing every other
check but holding six pawns of one color fails with `Pawns`; and validation
always returns either the fully installed position or one classified
error. -/
theorem validate_boundary (s : Setup) :
    (occupiedOf s.board = ∅ → fromSetup s = .error .Empty)
    ∧ (∀ k1 k2, kingOf s.board s.turn = some k1 →
        kingOf s.board (opposite s.turn) = some k2 →
        squareFile k1 = squareFile k2 → between k1 k2 ∩ occupiedOf s.board = ∅ →
        fromSetup s = .error .FacingKings)
    ∧ (∀ k1 k2, kingOf s.board s.turn = some k1 →
        kingOf s.board (opposite s.turn) = some k2 →
        ¬(squareFile k1 = squareFile k2 ∧ between k1 k2 ∩ occupiedOf s.board = ∅) →
        attacksTo k2 s.turn s.board (occupiedOf s.board) = ∅ →
        (∀ c r, r ≠ Role.pawn → (piecesCR s.board c r).card ≤ maxNum r
          ∧ piecesCR s.board c r ∩ forbiddenSquares r c = ∅) →
        (∀ c, piecesCR s.board c .pawn ∩ forbiddenSquares .pawn c = ∅) →
        (5 < (piecesCR s.board .red .pawn).card ∨ 5 < (piecesCR s.board .black .pawn).card) →
        fromSetup s = .error .Pawns)
    ∧ (fromSetup s = .ok (positionOfSetup s) ∨ ∃ e, fromSetup s = .error e) := by
  refine ⟨fun hemp => ?_, fun k1 k2 h1 h2 hf hbet => ?_,
    fun k1 k2 h1 h2 hnf hnc hspec hpz hsix => ?_, ?_⟩
  · apply fromSetup_error
    unfold validateBT
    rw [if_pos hemp]
  · apply fromSetup_error
    unfold validateBT
    rw [if_neg (occupied_ne_empty_of_kingOf h1), h1, h2]
    show (if squareFile k1 = squareFile k2 ∧ between k1 k2 ∩ occupiedOf s.board = ∅
        then Except.error IllegalSetup.FacingKings
        else if attacksTo k2 s.turn s.board (occupiedOf s.board) ≠ ∅
        then Except.error IllegalSetup.OppositeCheck
        else checkSpecs s.board colorRolePairs) = Except.error IllegalSetup.FacingKings
    rw [if_pos ⟨hf, hbet⟩]
  · apply fromSetup_error
    unfold validateBT
    rw [if_neg (occupied_ne_empty_of_kingOf h1), h1, h2]
    show (if squareFile k1 = squareFile k2 ∧ between k1 k2 ∩ occupiedOf s.board = ∅
        then Except.error IllegalSetup.FacingKings
        else if attacksTo k2 s.turn s.board (occupiedOf s.board) ≠ ∅
        then Except.error IllegalSetup.OppositeCheck
        else checkSpecs s.board colorRolePairs) = Except.error IllegalSetup.Pawns
    rw [if_neg hnf, if_neg (fun hne => hne hnc)]
    have hl : colorRolePairs
        = [(Color.red, Role.king), (Color.red, Role.advisor), (Color.red, Role.elephant),
          (Color.red, Role.horse), (Color.red, Role.chariot), (Color.red, Role.cannon),
          (Color.red, Role.pawn), (Color.black, Role.king), (Color.black, Role.advisor),
          (Color.black, Role.elephant), (Color.black, Role.horse), (Color.black, Role.chariot),
          (Color.black, Role.cannon), (Color.black, Role.pawn)] := rfl
    rw [hl]
    rw [checkSpecs_cons_pass _ _ _ _ (hspec _ _ (by decide)).1 (hspec _ _ (by decide)).2]
    rw [checkSpecs_cons_pass _ _ _ _ (hspec _ _ (by decide)).1 (hspec _ _ (by decide)).2]
    rw [checkSpecs_cons_pass _ _ _ _ (hspec _ _ (by decide)).1 (hspec _ _ (by decide)).2]
    rw [checkSpecs_cons_pass _ _ _ _ (hspec _ _ (by decide)).1 (hspec _ _ (by decide)).2]
    rw [checkSpecs_cons_pass _ _ _ _ (hspec _ _ (by decide)).1 (hspec _ _ (by decide)).2]
    rw [checkSpecs_cons_pass _ _ _ _ (hspec _ _ (by decide)).1 (hspec _ _ (by decide)).2]
    by_cases hr : 5 < (piecesCR s.board .red .pawn).card
    · rw [checkSpecs_cons_fail _ _ _ _ (Or.inl (show maxNum Role.pawn < _ from hr))]
      rfl
    · have hr5 : (piecesCR s.board .red .pawn).card ≤ maxNum .pawn := Nat.not_lt.mp hr
      rw [checkSpecs_cons_pass _ _ _ _ hr5 (hpz .red)]
      rw [checkSpecs_cons_pass _ _ _ _ (hspec _ _ (by decide)).1 (hspec _ _ (by decide)).2]
      rw [checkSpecs_cons_pass _ _ _ _ (hspec _ _ (by decide)).1 (hspec _ _ (by decide)).2]
      rw [checkSpecs_cons_pass _ _ _ _ (hspec _ _ (by decide)).1 (hspec _ _ (by decide)).2]
      rw [checkSpecs_cons_pass _ _ _ _ (hspec _ _ (by decide)).1 (hspec _ _ (by decide)).2]
      rw [checkSpecs_cons_pass _ _ _ _ (hspec _ _ (by decide)).1 (hspec _ _ (by decide)).2]
      rw [checkSpecs_cons_pass _ _ _ _ (hspec _ _ (by decide)).1 (hspec _ _ (by decide)).2]
      rw [checkSpecs_cons_fail _ _ _ _
        (Or.inl (show maxNum Role.pawn < _ from hsix.resolve_left hr))]
      rfl
  · cases hv : validateBT s.board s.turn with
    | ok u =>
        left
        have heq : fromSetup s
            = (validateBT s.board s.turn).map (fun _ => positionOfSetup s) := rfl
        rw [heq, hv]
        rfl
    | error e => exact Or.inr ⟨e, fromSetup_error hv⟩

/-- C6 witness: the three concrete boundary setups produce the three
classified errors. -/
theorem validate_boundary_witness :
    fromSetup setupEmpty = .error .Empty
    ∧ fromSetup setupFacing = .error .FacingKings
    ∧ fromSetup setupSixPawns = .error .Pawns := by
  refine ⟨(validate_boundary setupEmpty).1 (by decide),
    (validate_boundary setupFacing).2.1 4 67 (by decide) (by decide) (by decide) (by decide),
    (validate_boundary setupSixPawns).2.2.1 3 67 (by decide) (by decide) (by decide)
      (by decide) (by decide) (by decide) (by decide)⟩

/-- C7: serializing a valid position with `toSetup` and reconstructing via
`fromSetup` succeeds and yields a position equal to the original up to move
counters (`equalsIgnoreMoves`). -/
theorem toSetup_roundtrip (p : Position) (h : p.validate = .ok ()) :
    fromSetup p.toSetup = .ok (positionOfSetup p.toSetup)
    ∧ equalsIgnoreMoves p (positionOfSetup p.toSetup) = true := by
  constructor
  · have heq : fromSetup p.toSetup
        = (validateBT p.board p.turn).map (fun _ => positionOfSetup p.toSetup) := rfl
    rw [heq, show validateBT p.board p.turn = Except.ok () from h]
    rfl
  · simp [equalsIgnoreMoves, boardEquals, positionOfSetup, Position.toSetup]

/-- C7 witness: the round trip at the concrete valid position `posKings`. -/
theorem toSetup_roundtrip_witness :
    fromSetup posKings.toSetup = .ok (positionOfSetup posKings.toSetup)
    ∧ equalsIgnoreMoves posKings (positionOfSetup posKings.toSetup) = true :=
  toSetup_roundtrip posKings (by rfl)

/-- The `hasDests = false` reading: every square of the side to move has an
empty destination set. -/
theorem hasDests_false_iff {p : Position} (h : p.hasDests = false) :
    ∀ s ∈ squaresAsc (byColor p.board p.turn), p.dests s = ∅ := by
  intro s hs
  unfold Position.hasDests at h
  by_contra hne
  have : (squaresAsc (byColor p.board p.turn)).any
      (fun s => decide (p.dests s ≠ ∅)) = true :=
    List.any_eq_true.mpr ⟨s, hs, by simpa using hne⟩
  rw [h] at this
  cases this

/-- C8: checkmate and stalemate are mutually exclusive, and either one
forces every entry of `allDests` to carry an empty destination set. -/
theorem checkmate_stalemate_spec (p : Position) :
    (p.isCheckmate = true → p.isStalemate = false)
    ∧ ((p.isCheckmate = true ∨ p.isStalemate = true) →
        ∀ pr ∈ p.allDests, pr.2 = ∅) := by
  constructor
  · intro hm
    have hck := (Bool.and_eq_true _ _).mp hm
    have h1 : p.ctx.checkers ≠ ∅ := of_decide_eq_true hck.1
    unfold Position.isStalemate
    simp [h1]
  · intro h pr hpr
    have hnd : p.hasDests = false := by
      rcases h with hm | hs
      · have := (Bool.and_eq_true _ _).mp hm
        simpa using this.2
      · have := (Bool.and_eq_true _ _).mp hs
        simpa using this.2
    unfold Position.allDests at hpr
    rcases List.mem_map.mp hpr with ⟨s, hs, rfl⟩
    exact hasDests_false_iff hnd s hs

/-- C8 witness: the concrete stalemate position, where every entry of
`allDests` is empty. -/
theorem checkmate_stalemate_spec_witness :
    posStale.isStalemate = true ∧ ∀ pr ∈ posStale.allDests, pr.2 = ∅ :=
  ⟨by decide, (checkmate_stalemate_spec posStale).2 (Or.inr (by decide))⟩

/-- C9: `outcome` awards the win to the side not to move on checkmate or
stalemate, declares a draw on insufficient material or the 50-move rule
otherwise, and reports no outcome in all remaining cases. -/
theorem outcome_spec (p : Position) :
    ((p.isCheckmate = true ∨ p.isStalemate = true) →
      p.outcome = some ⟨some (opposite p.turn)⟩)
    ∧ (p.isCheckmate = false → p.isStalemate = false →
        (p.isInsufficientMaterial = true ∨ p.is50Moves = true) →
        p.outcome = some ⟨none⟩)
    ∧ (p.isCheckmate = false → p.isStalemate = false →
        p.isInsufficientMaterial = false → p.is50Moves = false →
        p.outcome = none) := by
  refine ⟨fun h => ?_, fun h1 h2 h3 => ?_, fun h1 h2 h3 h4 => ?_⟩
  · unfold Position.outcome
    rcases h with hm | hs
    · rw [if_pos (by simp [hm])]
    · rw [if_pos (by simp [hs])]
  · unfold Position.outcome
    rw [if_neg (by simp [h1, h2]), if_pos (by rcases h3 with h | h <;> simp [h])]
  · unfold Position.outcome
    rw [if_neg (by simp [h1, h2]), if_neg (by simp [h3, h4])]

/-- C9 witness: `posKings` is neither mate nor stalemate, has insufficient
material on both sides, and `outcome` duly reports a draw. -/
theorem outcome_spec_witness : posKings.outcome = some ⟨none⟩ :=
  (outcome_spec posKings).2.1 (by decide) (by decide) (Or.inl (by decide))

/-- An empty square set lists no squares. -/
theorem squaresAsc_empty : squaresAsc (∅ : SquareSet) = [] := by
  simp [squaresAsc]

/-- C10: when the side to move has no king on the board, `ctx` reports an
undefined king with empty checkers, and `isCheck` and `isCheckmate` are
false — the check computation is skipped rather than failing. -/
theorem kingless_ctx_spec (p : Position) (h : piecesCR p.board p.turn .king = ∅) :
    p.ctx = ⟨none, ∅⟩ ∧ p.isCheck = false ∧ p.isCheckmate = false := by
  have hk : kingOf p.board p.turn = none := by
    unfold kingOf singleSquare
    rw [h, squaresAsc_empty]
  have hc : p.ctx = ⟨none, ∅⟩ := by
    unfold Position.ctx
    rw [hk]
  refine ⟨hc, ?_, ?_⟩
  · unfold Position.isCheck
    rw [hc]
    simp
  · unfold Position.isCheckmate
    rw [hc]
    simp

/-- C10 witness: the concrete position without a red king. -/
theorem kingless_ctx_spec_witness :
    piecesCR posNoRedKing.board posNoRedKing.turn .king = ∅
    ∧ posNoRedKing.ctx = ⟨none, ∅⟩
    ∧ posNoRedKing.isCheck = false
    ∧ posNoRedKing.isCheckmate = false := by
  have h := kingless_ctx_spec posNoRedKing (by decide)
  exact ⟨by decide, h.1, h.2.1, h.2.2⟩
